import Mathlib

/-!
Verification of the utility functions in `src/util.js` of quick-n-dirty-utils.

Numbers are modelled as rationals (`ℚ`): all claims are about small exact
values where IEEE doubles behave like exact arithmetic.  JavaScript objects
that the claims inspect are modelled as association lists in insertion order,
which is how `Object.entries` and property updates behave for string keys.
The `range` loop is modelled with an explicit fuel parameter because the
source loop does not terminate for every input; `none` means the loop is
still running after `fuel` iterations.
-/

/-- JS property read `m[k]`: the value stored under `k`, `none` when absent. -/
def lookupKey {β : Type} : List (String × β) → String → Option β
  | [], _ => none
  | (k, v) :: rest, key => if k = key then some v else lookupKey rest key

/-- JS property write `m[k] = v`: updates the existing binding in place,
appends a new binding otherwise (insertion order is preserved). -/
def setKey {β : Type} : List (String × β) → String → β → List (String × β)
  | [], key, v => [(key, v)]
  | (k, w) :: rest, key, v =>
    if k = key then (k, v) :: rest else (k, w) :: setKey rest key v

/-- Source function `util.normalise(val, min, max)` from `src/util.js` lines 79-97, verbatim:
the early clamps compare against the arguments as given, then the bounds are
swapped when `max < min`, then `max === min` returns 1, else interpolate. -/
def normalise (val min max : ℚ) : ℚ :=
  if val < min then 0
  else if max < val then 1
  else
    let minValue := if max < min then max else min
    let maxValue := if max < min then min else max
    if max = min then 1
    else (val - minValue) / (maxValue - minValue)

/-- The `for` loop of `util.range` (lines 206-208): one fuel unit per guard
test; `none` means the loop has not finished within `fuel` iterations. -/
def rangeAux (step : ℚ) (compareFunction : ℚ → Bool) : ℕ → ℚ → List ℚ → Option (List ℚ)
  | 0, _, _ => none
  | fuel + 1, i, acc =>
    if compareFunction i then rangeAux step compareFunction fuel (i + step) (acc ++ [i])
    else some acc

/-- Source function `util.range(start, stop, step)` from `src/util.js` lines 194-210: the
direction-mismatch guard returns `[]`, otherwise the loop runs with the
compare function `x <= stop`, or `x >= stop` when `step < 0`. -/
def range (fuel : ℕ) (start stop : ℚ) (step : ℚ := 1) : Option (List ℚ) :=
  if (stop < start ∧ 0 < step) ∨ (start < stop ∧ step < 0) then some []
  else
    let compareFunction : ℚ → Bool :=
      if step < 0 then fun x => decide (stop ≤ x) else fun x => decide (x ≤ stop)
    rangeAux step compareFunction fuel start []

/-- JavaScript runtime values as far as the sorting helpers inspect them:
primitives, `null`, `undefined`, and plain objects (fields in insertion
order).  Arrays do not occur among the sorted items in any claim. -/
inductive JsValue where
  | str (s : String)
  | num (q : ℚ)
  | bool (b : Bool)
  | null
  | undefined
  | obj (fields : List (String × JsValue))

/-- JS truthiness, used by the boolean branch `aVal ? -1 : 1` of the
comparator (platform semantics: empty string, 0, null, undefined falsy). -/
def truthy : JsValue → Bool
  | .str s => !(s == "")
  | .num q => decide (q ≠ 0)
  | .bool b => b
  | .null => false
  | .undefined => false
  | .obj _ => true

/-- Model of JS ToNumber coercion as used by the numeric branch
`aVal - bVal`: numbers are themselves, booleans are 0/1, null is 0;
`undefined`, plain objects and strings are modelled as `none` (NaN; the
string-to-number parse is not modelled because no claim exercises it). -/
def toNum : JsValue → Option ℚ
  | .num q => some q
  | .bool b => some (if b then 1 else 0)
  | .null => some 0
  | _ => none

/-- The string value expected by `aVal.localeCompare(bVal)`; a non-string
receiver is modelled as `none` (in JS it would throw or coerce, identically
for both comparison directions). -/
def strVal : JsValue → Option String
  | .str s => some s
  | _ => none

/-- Model of the platform's `String.prototype.localeCompare`: negative,
zero or positive according to the string order.  Any locale gives a total
order; the lexicographic order of `String` stands in for it. -/
def localeCompare (a b : String) : ℚ :=
  if a < b then -1 else if a = b then 0 else 1

/-- Model of JS `key.split(".")` on the character list of the key. -/
def splitOnDot : List Char → List (List Char)
  | [] => [[]]
  | c :: rest =>
    let segs := splitOnDot rest
    if c = '.' then [] :: segs
    else
      match segs with
      | [] => [[c]]
      | seg :: tail => (c :: seg) :: tail

/-- Model of JS `key.split(".")` returning strings. -/
def jsSplitDots (s : String) : List String :=
  (splitOnDot s.data).map String.mk

/-- Model of JS `key.includes(".")`. -/
def jsIncludesDot (s : String) : Bool :=
  s.data.contains '.'

/-- JS property access `v[k]`: a field of an object, `undefined` otherwise.
Property access on `null`/`undefined` throws in JS; the sort lambda only
performs it unguarded on the items themselves, and the claims compare the
two directions on identical items, so it is modelled as `undefined`. -/
def propAccess (v : JsValue) (k : String) : JsValue :=
  match v with
  | .obj fields => (lookupKey fields k).getD .undefined
  | _ => .undefined

/-- JS loose check `x != null` (false exactly for null and undefined). -/
def notNullish : JsValue → Bool
  | .null => false
  | .undefined => false
  | _ => true

/-- Value extraction of the sort lambda (`src/util.js` lines 344-358):
dotted keys descend sequentially keeping the old value at a nullish step,
plain keys are read directly. -/
def extractVal (key : String) (v : JsValue) : JsValue :=
  if jsIncludesDot key then
    (jsSplitDots key).foldl
      (fun acc subKey => if notNullish acc then propAccess acc subKey else acc) v
  else propAccess v key

/-- Constant `SORT_DIRECTIONS.ASC` from `src/util.js` line 16. -/
def SORT_DIRECTIONS_ASC : String := "asc"

/-- Constant `SORT_DIRECTIONS.DESC` from `src/util.js` line 17. -/
def SORT_DIRECTIONS_DESC : String := "desc"

/-- A sorting definition `{ key, direction }` (spec section 3). -/
structure Sorting where
  key : String
  direction : String

/-- Source function `util.sort(sorting, stringKeys, booleanKeys)` from `src/util.js` lines
340-381: returns the comparator lambda.  The comparator's JS number result
is modelled as `Option ℚ`, `none` standing for NaN / a thrown coercion. -/
def sort (sorting : Sorting) (stringKeys : List String := [])
    (booleanKeys : List String := []) : JsValue → JsValue → Option ℚ :=
  fun a b =>
    let aVal := extractVal sorting.key a
    let bVal := extractVal sorting.key b
    if stringKeys.contains sorting.key then
      match strVal aVal, strVal bVal with
      | some x, some y =>
        if sorting.direction = SORT_DIRECTIONS_ASC then some (localeCompare x y)
        else some (localeCompare y x)
      | _, _ => none
    else if booleanKeys.contains sorting.key then
      if sorting.direction = SORT_DIRECTIONS_ASC then some (if truthy aVal then -1 else 1)
      else some (if truthy aVal then 1 else -1)
    else
      match toNum aVal, toNum bVal with
      | some x, some y =>
        if sorting.direction = SORT_DIRECTIONS_ASC then some (x - y) else some (y - x)
      | _, _ => none

/-- The direction flip of `updateSorting` (line 322):
`direction === ASC ? DESC : ASC`. -/
def flipDirection (d : String) : String :=
  if d = SORT_DIRECTIONS_ASC then SORT_DIRECTIONS_DESC else SORT_DIRECTIONS_ASC

/-- Source function `util.initSorting` from `src/util.js` lines 287-298.  The source
resolves the two `null` defaults by calling itself; this definition is that
recursion's result. -/
def initSorting (sortKey : Option String) (defaultDirection : Option String := none) : Sorting :=
  ⟨sortKey.getD "date", defaultDirection.getD SORT_DIRECTIONS_ASC⟩

/-- Source function `util.updateSorting` from `src/util.js` lines 308-331.  The component
state is modelled by its sorting-definition entries.  When no sorting is
stored under the state key, the source evaluates `self.initSorting(...)`:
`self` is not bound in the module (in a browser it is the global object,
which has no `initSorting`), so the call throws instead of initialising;
that branch is modelled as `Except.error`.  In the other two branches the
source mutates the stored object shared with the shallow copy it returns;
the returned state is modelled directly. -/
def updateSorting (oldState : List (String × Sorting)) (sortKey : String)
    (stateKey : Option String := none) (defaultDirection : Option String := none) :
    Except String (List (String × Sorting)) :=
  let sk := stateKey.getD "sorting"
  let dd := defaultDirection.getD SORT_DIRECTIONS_ASC
  match lookupKey oldState sk with
  | none => Except.error "self is not defined"
  | some existingSorting =>
    if existingSorting.key = sortKey then
      Except.ok (setKey oldState sk ⟨existingSorting.key, flipDirection existingSorting.direction⟩)
    else
      Except.ok (setKey oldState sk ⟨sortKey, dd⟩)

/-- A value of the object built by `mapListToKeyObject`: a single item, or
a list of items once a second one maps to the same key (the source's
`Array.isArray` test distinguishes exactly these two shapes for non-array
items). -/
inductive Entry (α : Type) where
  | single (item : α)
  | multiple (items : List α)

/-- Source function `util.mapListToKeyObject(list, keyOrFunction)` from `src/util.js` lines
489-515 for a non-null list: `keyFn` is the extraction lambda (for a string
key `k` the source uses `obj => obj[k]`).  First item for a key is stored
bare; a second one converts the slot to a two-element array; later ones are
pushed.  `mapStep` is the loop body applied to each item. -/
def mapStep {α : Type} (keyFn : α → String) (result : List (String × Entry α)) (item : α) :
    List (String × Entry α) :=
  let key := keyFn item
  match lookupKey result key with
  | none => setKey result key (Entry.single item)
  | some (Entry.single old) => setKey result key (Entry.multiple [old, item])
  | some (Entry.multiple xs) => setKey result key (Entry.multiple (xs ++ [item]))

/-- The whole traversal of `mapListToKeyObject`. -/
def mapListToKeyObject {α : Type} (list : List α) (keyFn : α → String) :
    List (String × Entry α) :=
  list.foldl (mapStep keyFn) []

/-- The value shape `mapListToKeyObject` produces for the items mapping to
one key: nothing, a bare single item, or the full list from two on. -/
def entryOf {α : Type} : List α → Option (Entry α)
  | [] => none
  | [x] => some (Entry.single x)
  | xs => some (Entry.multiple xs)

/-- The primitive values accepted by `reverseMapping` (its `typeof` check:
number, boolean, string).  Numeric values are modelled as integers so that
the platform's number-to-string conversion is exact. -/
inductive Prim where
  | str (s : String)
  | int (n : Int)
  | bool (b : Bool)
  deriving DecidableEq

/-- Model of the JS template-literal stringification (the source's
backtick-wrapped value) for the supported primitives. -/
def primToString : Prim → String
  | .str s => s
  | .int n => toString n
  | .bool b => if b then "true" else "false"

/-- Source function `util.reverseMapping(jsonObject)` from `src/util.js` lines 414-430:
each value is stringified into the new key; a value whose stringification
is already present is skipped with a console warning.  `revStep` is the
loop body applied to each entry. -/
def revStep (result : List (String × String)) (kv : String × Prim) : List (String × String) :=
  let newKey := primToString kv.2
  match lookupKey result newKey with
  | some _ => result
  | none => setKey result newKey kv.1

/-- The whole traversal of `reverseMapping`. -/
def reverseMapping (jsonObject : List (String × Prim)) : List (String × String) :=
  jsonObject.foldl revStep []

/-- Source function `util.keyLookup(jsonMapping, lookupValue)` from `src/util.js` lines
444-447: `reverse[lookupValue]` stringifies the lookup value into a
property key. -/
def keyLookup (jsonMapping : List (String × Prim)) (lookupValue : Prim) : Option String :=
  lookupKey (reverseMapping jsonMapping) (primToString lookupValue)

/-- First key of the mapping whose stringified value is `s` (the value
`reverseMapping` ends up storing under `s`). -/
def revLookup (s : String) : List (String × Prim) → Option String
  | [] => none
  | (k, v) :: rest => if primToString v = s then some k else revLookup s rest

/-- A mapping with unique primitive values whose stringifications collide:
the number 1 and the string "1". -/
def collidingMapping : List (String × Prim) :=
  [("a", Prim.int 1), ("b", Prim.str "1")]

/-- A mapping whose values stringify to pairwise distinct strings. -/
def roundTripMapping : List (String × Prim) :=
  [("foo", Prim.str "bar"), ("n", Prim.int 7)]

/-- A field of the object passed to `reject`: the rejection built by the
source stores a number and (the promise of) a string; the rejection the
spec describes would store parsed JSON, hence the third shape. -/
inductive JsField where
  | num (n : ℕ)
  | str (s : String)
  | json (v : JsValue)

/-- A fetch-style response as `restHandler` consumes it: the status code
and the two platform-provided body readers, `text()` (raw body) and
`json()` (`none` when the body is not valid JSON, in which case the JS
`json()` promise rejects). -/
structure Response where
  status : ℕ
  bodyText : String
  bodyJson : Option JsValue

/-- The response's `text()` reader (in JS it returns a promise of this
string). -/
def Response.text (r : Response) : String := r.bodyText

/-- The response's `json()` reader. -/
def Response.json (r : Response) : Option JsValue := r.bodyJson

/-- How the promise returned by `restHandler` settles: resolved with the
parsed body, rejected with the payload object passed to `reject`, or
rejected with the SyntaxError of the adopted `json()` promise. -/
inductive RestOutcome where
  | resolved (body : JsValue)
  | rejected (payload : List (String × JsField))
  | parseFailed

/-- Source function `util.restHandler(response)` from `src/util.js` lines 155-166: status
at least 400 rejects with `{ status, message: response.text() }` (the
`message` field holds the raw-text promise; nothing is JSON-parsed);
otherwise the promise resolves `response.json()`, adopting its outcome. -/
def restHandler (response : Response) : RestOutcome :=
  if 400 ≤ response.status then
    RestOutcome.rejected
      [("status", JsField.num response.status),
       ("message", JsField.str (Response.text response))]
  else
    match Response.json response with
    | some body => RestOutcome.resolved body
    | none => RestOutcome.parseFailed

/-- A 404 response carrying the JSON body of the spec's example. -/
def response404 : Response :=
  ⟨404, "\x7b\"error\":\"not found\"\x7d",
    some (JsValue.obj [("error", JsValue.str "not found")])⟩

/-- The rejection value the claim asserts for `response404`:
`{ status: 404, body: { error: "not found" } }`. -/
def claimedRejection404 : List (String × JsField) :=
  [("status", JsField.num 404),
   ("body", JsField.json (JsValue.obj [("error", JsValue.str "not found")]))]

/-- A 200 response carrying a JSON body. -/
def response200 : Response :=
  ⟨200, "\x7b\"ok\":true\x7d", some (JsValue.obj [("ok", JsValue.bool true)])⟩

/-- Item with a true `flag` field, for the comparator witness. -/
def itemFlagTrue : JsValue := JsValue.obj [("flag", JsValue.bool true)]

/-- Item with a false `flag` field, for the comparator witness. -/
def itemFlagFalse : JsValue := JsValue.obj [("flag", JsValue.bool false)]

/-- A component state holding a sorting definition, for the witnesses. -/
def sortingState : List (String × Sorting) := [("sorting", ⟨"date", "asc"⟩)]

theorem lookupKey_setKey_self {β : Type} (m : List (String × β)) (k : String) (v : β) :
    lookupKey (setKey m k v) k = some v := by
  induction m with
  | nil => simp [setKey, lookupKey]
  | cons hd tl ih =>
    obtain ⟨k₂, w⟩ := hd
    by_cases h : k₂ = k
    · simp [setKey, lookupKey, h]
    · simp [setKey, lookupKey, h, ih]

theorem lookupKey_setKey_ne {β : Type} (m : List (String × β)) (k k₂ : String) (v : β)
    (h : k ≠ k₂) : lookupKey (setKey m k v) k₂ = lookupKey m k₂ := by
  induction m with
  | nil => simp [setKey, lookupKey, h]
  | cons hd tl ih =>
    obtain ⟨k₃, w⟩ := hd
    by_cases h₃ : k₃ = k
    · subst h₃; simp [setKey, lookupKey, h]
    · simp [setKey, lookupKey, h₃, ih]

/-- Claim C5: for `min ≤ val ≤ max` with `min < max`, `normalise` is the
linear interpolation `(val - min) / (max - min)`; the clamp and degenerate
clauses hold in the piecewise order the source checks them: `val < min`
gives 0, then `val > max` gives 1, then `min == max` gives 1. -/
theorem normalise_c5 (val min max : ℚ) :
    (min ≤ val → val ≤ max → min < max → normalise val min max = (val - min) / (max - min))
    ∧ (val < min → normalise val min max = 0)
    ∧ (min ≤ max → max < val → normalise val min max = 1)
    ∧ (min = max → min ≤ val → val ≤ max → normalise val min max = 1) := by
  refine ⟨?_, ?_, ?_, ?_⟩
  · intro h1 h2 h3
    simp only [normalise]
    split_ifs with hv hm heq hlt
    · exact absurd hv (not_lt.mpr h1)
    · exact absurd hm (not_lt.mpr h2)
    · exact absurd heq h3.ne'
    · exact absurd hlt (not_lt.mpr h3.le)
    · rfl
  · intro hv
    simp only [normalise]
    rw [if_pos hv]
  · intro hle hv
    simp only [normalise]
    rw [if_neg (not_lt.mpr (hle.trans hv.le)), if_pos hv]
  · intro he h1 h2
    simp only [normalise]
    rw [if_neg (not_lt.mpr h1), if_neg (not_lt.mpr h2), if_pos he.symm]

/-- Witness for C5 at `normalise(3, 0, 20)`. -/
theorem normalise_c5_witness :
    (0 : ℚ) ≤ 3 ∧ (3 : ℚ) ≤ 20 ∧ (0 : ℚ) < 20 ∧ normalise 3 0 20 = (3 - 0) / (20 - 0) :=
  ⟨by decide, by decide, by decide, (normalise_c5 3 0 20).1 (by decide) (by decide) (by decide)⟩

/-- Counterexample to claim C3: `normalise` does not swap inverted bounds.
With `min = 10 > 0 = max` and `val = 5`, the early clamp `val < min` fires
and returns 0, while the swapped call interpolates to 1/2. -/
theorem normalise_c3_counterexample : normalise 5 10 0 ≠ normalise 5 0 10 := by
  norm_num [normalise]

/-- Claim C3 amended: for `min > max` the early clamps still compare
against the arguments in their given order, so every value below `min`
returns 0 and every other value returns 1; the swap branch is unreachable
and `normalise(val, min, max)` is not `normalise(val, max, min)`. -/
theorem normalise_c3_amended (val min max : ℚ) (h : max < min) :
    normalise val min max = if val < min then 0 else 1 := by
  by_cases hv : val < min
  · simp only [normalise, if_pos hv]
  · have hmax : max < val := lt_of_lt_of_le h (not_lt.mp hv)
    simp only [normalise, if_neg hv, if_pos hmax]

/-- Witness for the amended C3 at `normalise(7, 10, 0)`. -/
theorem normalise_c3_amended_witness :
    (0 : ℚ) < 10 ∧ normalise 7 10 0 = if (7 : ℚ) < 10 then 0 else 1 :=
  ⟨by decide, normalise_c3_amended 7 10 0 (by decide)⟩

theorem rangeAux_zero_step_none (stop i : ℚ) (hi : i ≤ stop) :
    ∀ (fuel : ℕ) (acc : List ℚ), rangeAux 0 (fun x => decide (x ≤ stop)) fuel i acc = none := by
  intro fuel
  induction fuel with
  | zero => intro acc; rfl
  | succ f ih =>
    intro acc
    simp only [rangeAux]
    rw [if_pos (by simpa using hi), add_zero]
    exact ih (acc ++ [i])

/-- Claim C2 (refuted): `range` does not terminate for every numeric input.
At `range(1, 2, 0)` the direction guard passes (it only checks nonzero
steps), the loop counter never moves, and the loop condition `1 <= 2` stays
true: for every fuel bound the loop is still running. -/
theorem range_step_zero_never_returns : ∀ fuel : ℕ, range fuel 1 2 0 = none := by
  intro fuel
  have hguard : ¬(((2 : ℚ) < 1 ∧ (0 : ℚ) < 0) ∨ ((1 : ℚ) < 2 ∧ (0 : ℚ) < 0)) := by norm_num
  simp only [range]
  rw [if_neg hguard, if_neg (lt_irrefl (0 : ℚ))]
  exact rangeAux_zero_step_none 2 1 (by norm_num) fuel []

theorem rangeAux_pos_spec (stop step : ℚ) (hstep : 0 < step) :
    ∀ (n : ℕ) (i : ℚ) (acc : List ℚ) (fuel : ℕ), n + 2 ≤ fuel →
      i + n * step ≤ stop → stop < i + (n + 1) * step →
      rangeAux step (fun x => decide (x ≤ stop)) fuel i acc =
        some (acc ++ (List.range (n + 1)).map fun k : ℕ => i + (k : ℚ) * step) := by
  intro n
  induction n with
  | zero =>
    intro i acc fuel hfuel h1 h2
    obtain ⟨f, rfl⟩ : ∃ f, fuel = f + 2 := ⟨fuel - 2, by omega⟩
    have hi : i ≤ stop := by push_cast at h1; linarith
    have hnext : ¬ (i + step ≤ stop) := by push_cast at h2; intro hcon; linarith
    simp only [rangeAux]
    rw [if_pos (by simpa using hi), if_neg (by simpa using hnext)]
    simp [List.range_succ]
  | succ m ih =>
    intro i acc fuel hfuel h1 h2
    obtain ⟨f, rfl⟩ : ∃ f, fuel = f + 1 := ⟨fuel - 1, by omega⟩
    have hge : (0 : ℚ) ≤ ((m : ℚ) + 1) * step := by positivity
    have hi : i ≤ stop := by push_cast at h1; linarith
    simp only [rangeAux]
    rw [if_pos (by simpa using hi)]
    rw [ih (i + step) (acc ++ [i]) f (by omega)
      (by push_cast at h1 ⊢; linarith) (by push_cast at h2 ⊢; linarith)]
    have hmap : (List.range (m + 1 + 1)).map (fun k : ℕ => i + (k : ℚ) * step)
        = i :: (List.range (m + 1)).map (fun k : ℕ => (i + step) + (k : ℚ) * step) := by
      rw [List.range_succ_eq_map, List.map_cons, List.map_map]
      refine congrArg₂ List.cons (by push_cast; ring) ?_
      refine List.map_congr_left fun a _ => ?_
      simp only [Function.comp_apply]
      push_cast
      ring
    rw [hmap]
    simp [List.append_assoc]

theorem rangeAux_neg_spec (stop step : ℚ) (hstep : step < 0) :
    ∀ (n : ℕ) (i : ℚ) (acc : List ℚ) (fuel : ℕ), n + 2 ≤ fuel →
      stop ≤ i + n * step → i + (n + 1) * step < stop →
      rangeAux step (fun x => decide (stop ≤ x)) fuel i acc =
        some (acc ++ (List.range (n + 1)).map fun k : ℕ => i + (k : ℚ) * step) := by
  intro n
  induction n with
  | zero =>
    intro i acc fuel hfuel h1 h2
    obtain ⟨f, rfl⟩ : ∃ f, fuel = f + 2 := ⟨fuel - 2, by omega⟩
    have hi : stop ≤ i := by push_cast at h1; linarith
    have hnext : ¬ (stop ≤ i + step) := by push_cast at h2; intro hcon; linarith
    simp only [rangeAux]
    rw [if_pos (by simpa using hi), if_neg (by simpa using hnext)]
    simp [List.range_succ]
  | succ m ih =>
    intro i acc fuel hfuel h1 h2
    obtain ⟨f, rfl⟩ : ∃ f, fuel = f + 1 := ⟨fuel - 1, by omega⟩
    have hge : ((m : ℚ) + 1) * step ≤ 0 :=
      mul_nonpos_of_nonneg_of_nonpos (by positivity) hstep.le
    have hi : stop ≤ i := by push_cast at h1; linarith
    simp only [rangeAux]
    rw [if_pos (by simpa using hi)]
    rw [ih (i + step) (acc ++ [i]) f (by omega)
      (by push_cast at h1 ⊢; linarith) (by push_cast at h2 ⊢; linarith)]
    have hmap : (List.range (m + 1 + 1)).map (fun k : ℕ => i + (k : ℚ) * step)
        = i :: (List.range (m + 1)).map (fun k : ℕ => (i + step) + (k : ℚ) * step) := by
      rw [List.range_succ_eq_map, List.map_cons, List.map_map]
      refine congrArg₂ List.cons (by push_cast; ring) ?_
      refine List.map_congr_left fun a _ => ?_
      simp only [Function.comp_apply]
      push_cast
      ring
    rw [hmap]
    simp [List.append_assoc]

/-- Claim C4: when the step sign matches the direction, `range` returns the
inclusive arithmetic sequence from `start` up to the last element not past
`stop` (`n` is the index of that last element); a direction mismatch
returns `[]`; and the spec's four examples compute as listed.  The fuel
bound `n + 2` is the number of loop-guard tests the run needs. -/
theorem range_c4 :
    (∀ (start stop step : ℚ) (n fuel : ℕ), 0 < step →
        start + n * step ≤ stop → stop < start + ((n : ℚ) + 1) * step → n + 2 ≤ fuel →
        range fuel start stop step =
          some ((List.range (n + 1)).map fun k : ℕ => start + (k : ℚ) * step))
    ∧ (∀ (start stop step : ℚ) (n fuel : ℕ), step < 0 →
        stop ≤ start + n * step → start + ((n : ℚ) + 1) * step < stop → n + 2 ≤ fuel →
        range fuel start stop step =
          some ((List.range (n + 1)).map fun k : ℕ => start + (k : ℚ) * step))
    ∧ (∀ (start stop step : ℚ) (fuel : ℕ),
        (stop < start ∧ 0 < step) ∨ (start < stop ∧ step < 0) →
        range fuel start stop step = some [])
    ∧ range 7 1 5 = some [1, 2, 3, 4, 5]
    ∧ range 7 5 1 (-1) = some [5, 4, 3, 2, 1]
    ∧ range 7 1 2 (1 / 2) = some [1, 3 / 2, 2]
    ∧ range 7 1 5 (-1) = some [] := by
  refine ⟨?_, ?_, ?_, ?_, ?_, ?_, ?_⟩
  · intro start stop step n fuel hstep h1 h2 hfuel
    have hge : (0 : ℚ) ≤ (n : ℚ) * step := by positivity
    have hguard : ¬((stop < start ∧ 0 < step) ∨ (start < stop ∧ step < 0)) := by
      push_neg
      constructor
      · intro hlt; linarith
      · intro _; linarith
    simp only [range]
    rw [if_neg hguard, if_neg (not_lt.mpr hstep.le)]
    simpa using rangeAux_pos_spec stop step hstep n start [] fuel hfuel h1 h2
  · intro start stop step n fuel hstep h1 h2 hfuel
    have hge : (n : ℚ) * step ≤ 0 := mul_nonpos_of_nonneg_of_nonpos (by positivity) hstep.le
    have hguard : ¬((stop < start ∧ 0 < step) ∨ (start < stop ∧ step < 0)) := by
      push_neg
      constructor
      · intro _; linarith
      · intro hlt; linarith
    simp only [range]
    rw [if_neg hguard, if_pos hstep]
    simpa using rangeAux_neg_spec stop step hstep n start [] fuel hfuel h1 h2
  · intro start stop step fuel hmismatch
    simp only [range]
    rw [if_pos hmismatch]
  · norm_num [range, rangeAux]
  · norm_num [range, rangeAux]
  · norm_num [range, rangeAux]
  · norm_num [range, rangeAux]

/-- Witness for C4 at `range(3, 3, 1)`, a one-element run. -/
theorem range_c4_witness :
    (0 : ℚ) < 1 ∧ ((3 : ℚ) + ((0 : ℕ) : ℚ) * 1 ≤ 3) ∧ ((3 : ℚ) < 3 + (((0 : ℕ) : ℚ) + 1) * 1)
    ∧ 0 + 2 ≤ 2
    ∧ range 2 3 3 1 = some ((List.range (0 + 1)).map fun k : ℕ => (3 : ℚ) + (k : ℚ) * 1) :=
  ⟨by norm_num, by norm_num, by norm_num, by norm_num,
    range_c4.1 3 3 1 0 2 (by norm_num) (by norm_num) (by norm_num) (by norm_num)⟩

theorem localeCompare_swap (a b : String) : localeCompare b a = -localeCompare a b := by
  unfold localeCompare
  rcases lt_trichotomy a b with h | h | h
  · rw [if_neg (asymm h), if_neg h.ne', if_pos h]
    norm_num
  · subst h
    simp
  · rw [if_pos h, if_neg (asymm h), if_neg h.ne']

/-- Claim C6: for a sort key listed in `booleanKeys` (and not intercepted
by the `stringKeys` branch, which the source checks first) the ascending
comparator returns -1 for a truthy extracted value and 1 otherwise, so true
sorts before false; and for every key and every pair of items the
descending comparator is the sign-negation of the ascending one, in all
three comparison branches. -/
theorem sort_c6 :
    (∀ (sorting : Sorting) (stringKeys booleanKeys : List String) (a b : JsValue),
        booleanKeys.contains sorting.key = true → stringKeys.contains sorting.key = false →
        sorting.direction = SORT_DIRECTIONS_ASC →
        sort sorting stringKeys booleanKeys a b =
          some (if truthy (extractVal sorting.key a) then -1 else 1))
    ∧ (∀ (key : String) (stringKeys booleanKeys : List String) (a b : JsValue),
        sort ⟨key, SORT_DIRECTIONS_DESC⟩ stringKeys booleanKeys a b =
          (sort ⟨key, SORT_DIRECTIONS_ASC⟩ stringKeys booleanKeys a b).map fun q => -q) := by
  constructor
  · intro sorting stringKeys booleanKeys a b hb hs hd
    simp only [sort]
    rw [if_neg (by rw [hs]; exact Bool.false_ne_true), if_pos hb, if_pos hd]
  · intro key stringKeys booleanKeys a b
    have hda : SORT_DIRECTIONS_DESC ≠ SORT_DIRECTIONS_ASC := by decide
    simp only [sort]
    by_cases hstr : stringKeys.contains key = true
    · rw [if_pos hstr, if_pos hstr]
      rcases hA : strVal (extractVal key a) with _ | x <;>
        rcases hB : strVal (extractVal key b) with _ | y
      · simp
      · simp
      · simp
      · simp only [hda, if_false, if_true, eq_self_iff_true, Option.map_some]
        simp [hda]
        exact localeCompare_swap x y
    · rw [if_neg hstr, if_neg hstr]
      by_cases hbool : booleanKeys.contains key = true
      · rw [if_pos hbool, if_pos hbool, if_neg hda]
        cases htr : truthy (extractVal key a) <;> simp [htr]
      · rw [if_neg hbool, if_neg hbool]
        rcases hA : toNum (extractVal key a) with _ | x <;>
          rcases hB : toNum (extractVal key b) with _ | y <;>
            simp [hda, neg_sub]

/-- Witness for C6: a boolean `flag` key in ascending direction on a truthy
and a falsy item. -/
theorem sort_c6_witness :
    (["flag"].contains ("flag" : String) = true)
    ∧ (([] : List String).contains ("flag" : String) = false)
    ∧ sort ⟨"flag", SORT_DIRECTIONS_ASC⟩ [] ["flag"] itemFlagTrue itemFlagFalse =
        some (if truthy (extractVal "flag" itemFlagTrue) then -1 else 1) :=
  ⟨by decide, by decide,
    sort_c6.1 ⟨"flag", SORT_DIRECTIONS_ASC⟩ [] ["flag"] itemFlagTrue itemFlagFalse
      (by decide) (by decide) rfl⟩

/-- Claim C7: when the sorting definition stored under the state key has
the selected key, `updateSorting` returns a state whose stored definition
keeps that key and flips the direction (and the flip swaps asc and desc);
when it has a different key, the returned definition carries the new key
and the given default direction. -/
theorem updateSorting_c7 :
    (∀ (oldState : List (String × Sorting)) (sortKey sk dd : String) (ex : Sorting),
        lookupKey oldState sk = some ex → ex.key = sortKey →
        ∃ s, updateSorting oldState sortKey (some sk) (some dd) = Except.ok s ∧
          lookupKey s sk = some ⟨sortKey, flipDirection ex.direction⟩)
    ∧ flipDirection SORT_DIRECTIONS_ASC = SORT_DIRECTIONS_DESC
    ∧ flipDirection SORT_DIRECTIONS_DESC = SORT_DIRECTIONS_ASC
    ∧ (∀ (oldState : List (String × Sorting)) (sortKey sk dd : String) (ex : Sorting),
        lookupKey oldState sk = some ex → ex.key ≠ sortKey →
        ∃ s, updateSorting oldState sortKey (some sk) (some dd) = Except.ok s ∧
          lookupKey s sk = some ⟨sortKey, dd⟩) := by
  refine ⟨?_, by decide, by decide, ?_⟩
  · intro oldState sortKey sk dd ex hlook hkey
    subst hkey
    refine ⟨setKey oldState sk ⟨ex.key, flipDirection ex.direction⟩, ?_, ?_⟩
    · simp only [updateSorting, Option.getD_some, hlook]
      simp
    · exact lookupKey_setKey_self oldState sk ⟨ex.key, flipDirection ex.direction⟩
  · intro oldState sortKey sk dd ex hlook hkey
    refine ⟨setKey oldState sk ⟨sortKey, dd⟩, ?_, ?_⟩
    · simp only [updateSorting, Option.getD_some, hlook]
      rw [if_neg hkey]
    · exact lookupKey_setKey_self oldState sk ⟨sortKey, dd⟩

/-- Witness for C7: reselecting the stored key "date" flips asc to desc. -/
theorem updateSorting_c7_witness :
    lookupKey sortingState "sorting" = some ⟨"date", "asc"⟩
    ∧ ∃ s, updateSorting sortingState "date" (some "sorting") (some "asc") = Except.ok s ∧
        lookupKey s "sorting" = some ⟨"date", flipDirection "asc"⟩ :=
  ⟨rfl, updateSorting_c7.1 sortingState "date" "sorting" "asc" ⟨"date", "asc"⟩ rfl rfl⟩

/-- Claim C10: when no sorting definition is stored under the state key,
`updateSorting` does not initialise one: the source calls
`self.initSorting(...)` through the unbound identifier `self`, so the call
fails with a runtime error, modelled as the error outcome. -/
theorem updateSorting_c10 (oldState : List (String × Sorting)) (sortKey : String)
    (stateKey defaultDirection : Option String)
    (h : lookupKey oldState (stateKey.getD "sorting") = none) :
    updateSorting oldState sortKey stateKey defaultDirection =
      Except.error "self is not defined" := by
  simp only [updateSorting, h]

/-- Witness for C10: an empty component state. -/
theorem updateSorting_c10_witness :
    lookupKey ([] : List (String × Sorting)) ((none : Option String).getD "sorting") = none
    ∧ updateSorting [] "name" none none = Except.error "self is not defined" :=
  ⟨rfl, updateSorting_c10 [] "name" none none rfl⟩

theorem lookupKey_mapStep {α : Type} (keyFn : α → String) (acc : List (String × Entry α))
    (x : α) (prev : String → List α) (h : ∀ k, lookupKey acc k = entryOf (prev k)) :
    ∀ k, lookupKey (mapStep keyFn acc x) k
      = entryOf (prev k ++ if keyFn x = k then [x] else []) := by
  intro k
  by_cases hk : keyFn x = k
  · subst hk
    have hacc := h (keyFn x)
    rcases hprev : prev (keyFn x) with _ | ⟨y, ys⟩
    · rw [hprev] at hacc
      simp only [entryOf] at hacc
      simp only [mapStep, hacc]
      rw [lookupKey_setKey_self]
      simp [hprev, entryOf]
    · rcases ys with _ | ⟨z, zs⟩
      · rw [hprev] at hacc
        simp only [entryOf] at hacc
        simp only [mapStep, hacc]
        rw [lookupKey_setKey_self]
        simp [hprev, entryOf]
      · rw [hprev] at hacc
        simp only [entryOf] at hacc
        simp only [mapStep, hacc]
        rw [lookupKey_setKey_self]
        simp [hprev, entryOf]
  · have hunch : lookupKey (mapStep keyFn acc x) k = lookupKey acc k := by
      simp only [mapStep]
      rcases lookupKey acc (keyFn x) with _ | e
      · exact lookupKey_setKey_ne acc (keyFn x) k _ hk
      · rcases e with y | ys
        · exact lookupKey_setKey_ne acc (keyFn x) k _ hk
        · exact lookupKey_setKey_ne acc (keyFn x) k _ hk
    rw [hunch, h k]
    simp [hk]

theorem mapFoldl_spec {α : Type} (keyFn : α → String) :
    ∀ (l : List α) (acc : List (String × Entry α)) (prev : String → List α),
      (∀ k, lookupKey acc k = entryOf (prev k)) →
      ∀ k, lookupKey (l.foldl (mapStep keyFn) acc) k
        = entryOf (prev k ++ l.filter fun i => keyFn i = k) := by
  intro l
  induction l with
  | nil =>
    intro acc prev h k
    simpa using h k
  | cons x xs ih =>
    intro acc prev h k
    rw [List.foldl_cons]
    have hnext := ih (mapStep keyFn acc x)
      (fun k2 => prev k2 ++ if keyFn x = k2 then [x] else [])
      (lookupKey_mapStep keyFn acc x prev h) k
    rw [hnext, List.filter_cons]
    by_cases hk : keyFn x = k
    · simp [hk, List.append_assoc]
    · simp [hk]

/-- Claim C8: for every list, key extractor and derived key, the object
built by `mapListToKeyObject` holds, under that key, nothing when no item
maps to it, the bare item when exactly one does, and the ordered list of
all items mapping to it (in input order) from the second occurrence on —
the slot becomes an array only when a second item arrives. -/
theorem mapListToKeyObject_c8 {α : Type} (list : List α) (keyFn : α → String) (k : String) :
    lookupKey (mapListToKeyObject list keyFn) k = entryOf (list.filter fun i => keyFn i = k) := by
  have h := mapFoldl_spec keyFn list [] (fun _ => []) (fun k2 => rfl) k
  simpa [mapListToKeyObject] using h

theorem revFoldl_spec :
    ∀ (l : List (String × Prim)) (acc : List (String × String)) (s : String),
      lookupKey (l.foldl revStep acc) s =
        match lookupKey acc s with
        | some k => some k
        | none => revLookup s l := by
  intro l
  induction l with
  | nil =>
    intro acc s
    rcases hacc : lookupKey acc s with _ | k1 <;> simp [revLookup, hacc]
  | cons kv rest ih =>
    intro acc s
    rw [List.foldl_cons, ih (revStep acc kv) s]
    obtain ⟨k, v⟩ := kv
    simp only [revStep]
    rcases hdup : lookupKey acc (primToString v) with _ | k0
    · by_cases hs : primToString v = s
      · subst hs
        rw [lookupKey_setKey_self, hdup]
        simp [revLookup]
      · rw [lookupKey_setKey_ne acc (primToString v) s k hs]
        rcases hacc : lookupKey acc s with _ | k1 <;> simp [revLookup, hs, hacc]
    · by_cases hs : primToString v = s
      · subst hs
        simp [revLookup, hdup]
      · rcases hacc : lookupKey acc s with _ | k1 <;> simp [revLookup, hs, hacc]

theorem revLookup_of_mem (m : List (String × Prim)) (k : String) (v : Prim)
    (hvals : (m.map fun kv => primToString kv.2).Nodup) (hmem : (k, v) ∈ m) :
    revLookup (primToString v) m = some k := by
  induction m with
  | nil => cases hmem
  | cons kv rest ih =>
    rcases List.mem_cons.mp hmem with heq | hrest
    · rw [← heq]
      simp [revLookup]
    · obtain ⟨k2, v2⟩ := kv
      rw [List.map_cons, List.nodup_cons] at hvals
      have hin : primToString v ∈ rest.map fun kv2 => primToString kv2.2 :=
        List.mem_map.mpr ⟨(k, v), hrest, rfl⟩
      have hne : primToString v2 ≠ primToString v := fun hcon => hvals.1 (hcon ▸ hin)
      simp only [revLookup]
      rw [if_neg hne]
      exact ih hvals.2 hrest

/-- Counterexample to claim C9: the round trip is not guaranteed by value
uniqueness alone.  In the mapping `{ a: 1, b: "1" }` the two values are
distinct primitives, but both stringify to "1"; `reverseMapping` keeps the
first key "a" and skips "b", so looking up the original value `"1"`
returns "a", not its key "b". -/
theorem keyLookup_c9_counterexample :
    (collidingMapping.map Prod.fst).Nodup
    ∧ (collidingMapping.map Prod.snd).Nodup
    ∧ ("b", Prim.str "1") ∈ collidingMapping
    ∧ keyLookup collidingMapping (Prim.str "1") = some "a"
    ∧ (some "a" : Option String) ≠ some "b" := by
  refine ⟨by decide, by decide, by decide, by decide, by decide⟩

/-- Claim C9 amended: the round trip holds when the stringified forms of
the values are pairwise distinct (JS property keys are strings, so the
number 1 and the string "1" would collide): then for every entry `(k, v)`
of the mapping, `keyLookup` on `v` returns `k`. -/
theorem reverseMapping_c9 (m : List (String × Prim)) (k : String) (v : Prim)
    (_hkeys : (m.map Prod.fst).Nodup)
    (hvals : (m.map fun kv => primToString kv.2).Nodup)
    (hmem : (k, v) ∈ m) :
    keyLookup m v = some k := by
  unfold keyLookup reverseMapping
  rw [revFoldl_spec m [] (primToString v)]
  simpa [lookupKey] using revLookup_of_mem m k v hvals hmem

/-- Witness for the amended C9 on `{ foo: "bar", n: 7 }` at the entry
`(n, 7)`. -/
theorem reverseMapping_c9_witness :
    (roundTripMapping.map Prod.fst).Nodup
    ∧ (roundTripMapping.map fun kv => primToString kv.2).Nodup
    ∧ ("n", Prim.int 7) ∈ roundTripMapping
    ∧ keyLookup roundTripMapping (Prim.int 7) = some "n" :=
  ⟨by decide, by decide, by decide,
    reverseMapping_c9 roundTripMapping "n" (Prim.int 7) (by decide) (by decide) (by decide)⟩

/-- Counterexample to claim C1: at status 404 with JSON body
`{"error":"not found"}` the promise does not reject with
`{status: 404, body: {error: "not found"}}`.  The source rejects with a
`message` field holding the raw body text and never JSON-parses it. -/
theorem restHandler_c1_counterexample :
    restHandler response404 ≠ RestOutcome.rejected claimedRejection404 := by
  intro h
  rw [show restHandler response404 = RestOutcome.rejected
      [("status", JsField.num 404),
       ("message", JsField.str "\x7b\"error\":\"not found\"\x7d")] from rfl,
    claimedRejection404] at h
  simp only [RestOutcome.rejected.injEq, List.cons.injEq, Prod.mk.injEq] at h
  exact absurd h.2.1.1 (by decide)

/-- Claim C1 amended: `restHandler` settles exactly once per response,
resolving with the JSON-parsed body when the status is below 400, and for
status 400 or greater rejecting with an object carrying the status and a
`message` field holding the raw body text (the pending `text()` promise);
the body is not JSON-parsed on rejection and there is no `body` field. -/
theorem restHandler_c1 (r : Response) :
    (∀ v, r.status < 400 → Response.json r = some v → restHandler r = RestOutcome.resolved v)
    ∧ (400 ≤ r.status → restHandler r =
        RestOutcome.rejected
          [("status", JsField.num r.status), ("message", JsField.str (Response.text r))]) := by
  constructor
  · intro v hs hj
    simp only [restHandler]
    rw [if_neg (by omega), hj]
  · intro hs
    simp only [restHandler]
    rw [if_pos hs]

/-- Witness for the amended C1 at the 404 and 200 example responses. -/
theorem restHandler_c1_witness :
    400 ≤ response404.status
    ∧ restHandler response404 =
        RestOutcome.rejected
          [("status", JsField.num response404.status),
           ("message", JsField.str (Response.text response404))]
    ∧ response200.status < 400
    ∧ Response.json response200 = some (JsValue.obj [("ok", JsValue.bool true)])
    ∧ restHandler response200 = RestOutcome.resolved (JsValue.obj [("ok", JsValue.bool true)]) :=
  ⟨by decide, (restHandler_c1 response404).2 (by decide), by decide, rfl,
    (restHandler_c1 response200).1 (JsValue.obj [("ok", JsValue.bool true)]) (by decide) rfl⟩
